import Mathlib

/-!
Verification of nollup's plugin hook-dispatch engine, lifecycle facade and
ES-module syntax transform (src/lib/impl/PluginLifecycle.js and
src/lib/__es2cjs.js), via a shallow embedding of the JavaScript code.

Conventions of the embedding:
* JavaScript runtime values are modelled by `JSVal` (numbers as `Int`; object
  property tables as ordered association lists, matching insertion-order
  enumeration of string keys).
* Asynchronous code is modelled by its sequential semantics: the engine runs on
  one cooperative scheduler, and in this core every await point resolves with
  the value the hook computed, so a hook is a pure function and a rejected
  promise / thrown value is `Except.error`.
* Mutable closure and container state (`container.__meta`, the transform map
  chain, `syntheticNamedExports`) becomes explicit state threaded through the
  fold, in the spot where the JavaScript mutates it.
* External collaborators (node `path`, `fs.readFileSync`, the acorn parser,
  `combineSourceMapChainFast`, `resolvePath` from utils) are parameters of the
  functions that call them.
-/

/-- A JavaScript runtime value, as far as this core observes it. -/
inductive JSVal : Type where
  | undef : JSVal
  | null : JSVal
  | bool : Bool → JSVal
  | num : Int → JSVal
  | str : String → JSVal
  /-- A plain object: ordered property table (insertion order). -/
  | obj : List (String × JSVal) → JSVal
  /-- An array value. -/
  | arr : List JSVal → JSVal
deriving Repr

/-- JavaScript truthiness. -/
def truthy : JSVal → Bool
  | .undef => false
  | .null => false
  | .bool b => b
  | .num n => n != 0
  | .str s => s != ""
  | .obj _ => true
  | .arr _ => true

/-- `typeof` for modelled values (`typeof null` is `"object"` in JavaScript). -/
def jsTypeof : JSVal → String
  | .undef => "undefined"
  | .null => "object"
  | .bool _ => "boolean"
  | .num _ => "number"
  | .str _ => "string"
  | .obj _ => "object"
  | .arr _ => "object"

/-- `v === null || v === undefined`: the dispatch engine's "no opinion" test. -/
def isAbsent : JSVal → Bool
  | .undef => true
  | .null => true
  | _ => false

/-- Property read `v[name]`.  On primitives the properties this core reads
(`code`, `map`, `meta`, ...) are all `undefined`; the code never reads a
property off `null`/`undefined` (those paths are guarded), so the `undefined`
default is only ever observed on non-object values. -/
def getField : JSVal → String → JSVal
  | .obj fields, name => ((fields.find? (fun kv => kv.1 == name)).map (fun kv => kv.2)).getD .undef
  | _, _ => JSVal.undef  -- property reads off primitives yield undefined here

/-- Property write on an object's table: overwrite in place if the key exists
(JavaScript keeps the original insertion position), else append. -/
def setField : List (String × JSVal) → String → JSVal → List (String × JSVal)
  | [], k, v => [(k, v)]
  | (k0, v0) :: rest, k, v =>
      if k0 == k then (k0, v) :: rest else (k0, v0) :: setField rest k v

/-- `delete v[name]` on an object; identity on non-objects. -/
def delField : JSVal → String → JSVal
  | .obj fields, name => .obj (fields.filter (fun kv => kv.1 != name))
  | v, _ => v

mutual
/-- Element conversion used by `Array.prototype.join`: `undefined` and `null`
become the empty string, everything else its string conversion. -/
def jsElemStr : JSVal → String
  | .undef => ""
  | .null => ""
  | .bool b => cond b "true" "false"
  | .num n => toString n
  | .str s => s
  | .obj _ => "[object Object]"
  | .arr l => jsArrJoin l

/-- `Array.prototype.join(',')`, the default array string conversion. -/
def jsArrJoin : List JSVal → String
  | [] => ""
  | [v] => jsElemStr v
  | v :: rest => jsElemStr v ++ "," ++ jsArrJoin rest
end

/-- `String(v)`: like `jsElemStr` but `undefined`/`null` print their names
(relevant when a value is used as an object property key). -/
def jsString : JSVal → String
  | .undef => "undefined"
  | .null => "null"
  | v => jsElemStr v

/-- `results.join(sep)` over hook results. -/
def jsJoin (sep : String) : List JSVal → String
  | [] => ""
  | [v] => jsElemStr v
  | v :: rest => jsElemStr v ++ sep ++ jsJoin sep rest

/-- Strict equality `v === s` against a string (used by the bundle proxy's
`find` on `fileName`). -/
def jsStrictEqStr (v : JSVal) (s : String) : Bool :=
  match v with
  | .str t => t == s
  | _ => false

/-- A thrown JavaScript value or runtime fault. -/
inductive JSErr : Type where
  /-- `TypeError` from calling a non-callable hook entry. -/
  | typeError : JSErr
  /-- A value thrown by a hook body (synchronously or as a rejection). -/
  | thrown : JSVal → JSErr
deriving Repr

/-- A plugin's entry for one hook name: either a plain (non-callable) value —
`JSVal.undef` when the plugin omits the hook — or a callable. -/
inductive HookEntry : Type where
  | val : JSVal → HookEntry
  | fn : (List JSVal → Except JSErr JSVal) → HookEntry

/-- A registered plugin: its hook table (`plugin.execute`).  The wrapper's
`context` receiver and `error.wrapAsync` adapter do not change any value this
core observes and are not modelled. -/
structure Plugin : Type where
  execute : String → HookEntry

/-- Bundler configuration's `external` option. -/
inductive ExternalConf : Type where
  /-- `config.external` absent / falsy. -/
  | unset : ExternalConf
  /-- An array of specifiers (membership via `indexOf`). -/
  | list : List String → ExternalConf
  /-- A predicate function (its raw return value is used). -/
  | func : (String → JSVal) → ExternalConf
  /-- Any other truthy value: `isExternal` falls through to `false`. -/
  | other : JSVal → ExternalConf

/-- The slice of `RollupConfigContainer` this core reads. -/
structure RollupConfigContainer : Type where
  external : ExternalConf

/-- Accumulated per-module metadata: module id → ordered property table. -/
abbrev MetaMap := List (String × List (String × JSVal))

/-- The slice of `PluginContainer` the lifecycle reads. -/
structure PluginContainer : Type where
  __plugins : List Plugin
  __config : Option RollupConfigContainer
  __meta : MetaMap

/-- `_callAsyncHook(plugin, hook, args)`: a string-typed entry is returned
as-is; otherwise a truthy entry is applied (a non-callable truthy entry makes
`.apply` raise a `TypeError`), and a falsy entry (including an omitted hook)
makes the async function resolve with `undefined`. -/
def _callAsyncHook (plugin : Plugin) (hook : String) (args : List JSVal) :
    Except JSErr JSVal :=
  match plugin.execute hook with
  | .val (.str s) => .ok (.str s)
  | .val v => if truthy v then .error .typeError else .ok .undef
  | .fn f => f args

/-- `_callSyncHook(plugin, hook, args)`: no string-literal special case; a
truthy entry is applied, a falsy one yields `undefined`. -/
def _callSyncHook (plugin : Plugin) (hook : String) (args : List JSVal) :
    Except JSErr JSVal :=
  match plugin.execute hook with
  | .val v => if truthy v then .error .typeError else .ok .undef
  | .fn f => f args

/-- The loop body of `callAsyncFirstHook`, recursing over the remaining
plugins.  Falling off the loop returns `undefined` (the async function's
implicit result). -/
def callAsyncFirstHookGo (hook : String) (args : List JSVal) :
    List Plugin → Except JSErr JSVal
  | [] => .ok .undef
  | p :: rest =>
      match _callAsyncHook p hook args with
      | .error e => .error e
      | .ok hr => if isAbsent hr then callAsyncFirstHookGo hook args rest else .ok hr

/-- `callAsyncFirstHook(container, hook, args)`: awaits each plugin's hook in
registration order until one returns a value other than `null`/`undefined`. -/
def callAsyncFirstHook (container : PluginContainer) (hook : String)
    (args : List JSVal) : Except JSErr JSVal :=
  callAsyncFirstHookGo hook args container.__plugins

/-- The loop body of `callAsyncSequentialHook`.  The JavaScript accumulator
`output` together with any state the caller's `fromResult` closure mutates is
the type `σ`; `toArgs` projects the hook arguments from it. -/
def callAsyncSequentialHookGo {σ : Type} (hook : String) (toArgs : σ → List JSVal)
    (fromResult : JSVal → σ → σ) : σ → List Plugin → Except JSErr σ
  | output, [] => .ok output
  | output, p :: rest =>
      match _callAsyncHook p hook (toArgs output) with
      | .error e => .error e
      | .ok hr =>
          callAsyncSequentialHookGo hook toArgs fromResult
            (if isAbsent hr then output else fromResult hr output) rest

/-- `callAsyncSequentialHook(container, hook, toArgs, fromResult, start)`. -/
def callAsyncSequentialHook {σ : Type} (container : PluginContainer) (hook : String)
    (toArgs : σ → List JSVal) (fromResult : JSVal → σ → σ) (start : σ) :
    Except JSErr σ :=
  callAsyncSequentialHookGo hook toArgs fromResult start container.__plugins

/-- `callAsyncParallelHook(container, hook, args)`: every hook is started, then
`Promise.all` collects the results in plugin order (with synchronously settled
promises a rejection surfaces in index order). -/
def callAsyncParallelHook (container : PluginContainer) (hook : String)
    (args : List JSVal) : Except JSErr (List JSVal) :=
  container.__plugins.mapM (fun p => _callAsyncHook p hook args)

/-- `callSyncFirstHook(container, hook, args)`. -/
def callSyncFirstHookGo (hook : String) (args : List JSVal) :
    List Plugin → Except JSErr JSVal
  | [] => .ok .undef
  | p :: rest =>
      match _callSyncHook p hook args with
      | .error e => .error e
      | .ok hr => if isAbsent hr then callSyncFirstHookGo hook args rest else .ok hr

/-- `callSyncSequentialHook(container, hook, args)`: threads `args[0]` through
every plugin, replacing it by any non-absent result. -/
def callSyncSequentialHookGo (hook : String) :
    JSVal → List Plugin → Except JSErr JSVal
  | output, [] => .ok output
  | output, p :: rest =>
      match _callSyncHook p hook [output] with
      | .error e => .error e
      | .ok hr =>
          callSyncSequentialHookGo hook (if isAbsent hr then output else hr) rest

/-- `handleMetaProperty(container, filePath, meta)`: when `meta` is truthy,
ensure a property table exists for `filePath` and copy every own enumerable
property of `meta` into it (later values overwrite).  Enumerable index
properties of primitive values never occur here (meta is an object when
present) and are not modelled. -/
def handleMetaProperty (metaMap : MetaMap) (filePath : String) (meta : JSVal) :
    MetaMap :=
  if truthy meta then
    let fileMeta := ((metaMap.find? (fun kv => kv.1 == filePath)).map (fun kv => kv.2)).getD []
    let fileMeta2 :=
      match meta with
      | .obj fields => fields.foldl (fun acc kv => setField acc kv.1 kv.2) fileMeta
      | _ => fileMeta
    match metaMap.find? (fun kv => kv.1 == filePath) with
    | some _ => metaMap.map (fun kv => if kv.1 == filePath then (kv.1, fileMeta2) else kv)
    | none => metaMap ++ [(filePath, fileMeta2)]
  else metaMap

/-- `isExternal(config, name)`: array membership, or the raw result of a
predicate function; every other configuration yields `false`.  The returned
value is used for its truthiness at the call sites. -/
def isExternal (config : Option RollupConfigContainer) (name : String) : JSVal :=
  match config with
  | none => .bool false
  | some c =>
      match c.external with
      | .unset => .bool false
      | .list l => .bool (l.contains name)
      | .func f => f name
      | .other _ => .bool false

/-- The node `path` / `process.cwd()` / `utils.resolvePath` collaborators used
by `resolveId` and `load`; they are external to this core (node builtins and
`impl/utils.js`). -/
structure PathOps : Type where
  isAbsolute : String → Bool
  normalize : String → String
  /-- `resolvePath(id, parent)` from `impl/utils.js`. -/
  resolvePath : String → String → String
  /-- `path.resolve(process.cwd(), '__entry')`. -/
  cwdEntry : String
  /-- `path.resolve(process.cwd(), filePath)` for a relative load path. -/
  resolveCwd : String → String

/-- `PluginLifecycle.resolveId(container, id, parentFilePath)`.  Returns the
resolved value together with the container metadata after the
`handleMetaProperty` mutation.  An absent `parentFilePath` is modelled as the
empty string (both are falsy in the `parentFilePath || ...` default). -/
def resolveId (po : PathOps) (container : PluginContainer)
    (id parentFilePath : String) : Except JSErr (JSVal × MetaMap) := do
  let hr0 ← callAsyncFirstHook container "resolveId" [.str id, .str parentFilePath]
  if (hr0 matches JSVal.bool false) || truthy (isExternal container.__config id) then
    return (JSVal.obj [("id", .str id), ("external", .bool true)], container.__meta)
  let hr1 :=
    match hr0 with
    | .str s =>
        JSVal.obj [("id", .str (if po.isAbsolute s then po.normalize s else s)),
                   ("external", .bool false)]
    | _ => hr0
  let hr2 :=
    if truthy hr1 then hr1
    else
      let parent := if parentFilePath != "" then parentFilePath else po.cwdEntry
      JSVal.obj [("id", .str (po.normalize (po.resolvePath id parent))),
                 ("external", .bool false)]
  let meta2 := handleMetaProperty container.__meta (jsString (getField hr2 "id"))
      (getField hr2 "meta")
  return (hr2, meta2)

/-- The lifecycle's `load(filePath, parentFilePath)`.  `fsRead` is
`fs.readFileSync(..., 'utf8')` (erroring when the file is unreadable).
Returns the source description together with the metadata after any merge.
The final branch of the JavaScript function (falling off the end, resolving
`undefined`) is unreachable: a truthy non-object, non-string result has an
`undefined` `code`, so the disk-read branch catches it. -/
def load (po : PathOps) (fsRead : String → Except JSErr String)
    (container : PluginContainer) (filePath parentFilePath : String) :
    Except JSErr (JSVal × MetaMap) := do
  let hr ← callAsyncFirstHook container "load" [.str filePath, .str parentFilePath]
  match hr with
  | .str s => return (JSVal.obj [("code", .str s)], container.__meta)
  | _ =>
    if jsTypeof hr == "object" && truthy (getField hr "code") then
      return (hr, handleMetaProperty container.__meta filePath (getField hr "meta"))
    else if !truthy hr || !truthy (getField hr "code") then
      let fp := if po.isAbsolute filePath then filePath else po.resolveCwd filePath
      let codeStr ← fsRead fp
      return (JSVal.obj [("code", .str codeStr)], container.__meta)
    else
      return (JSVal.undef, container.__meta)

/-- The lifecycle's `banner()`: parallel dispatch, then `results.join('\n')`. -/
def banner (container : PluginContainer) : Except JSErr JSVal := do
  let results ← callAsyncParallelHook container "banner" []
  return JSVal.str (jsJoin "\n" results)

/-- The lifecycle's `footer()`. -/
def footer (container : PluginContainer) : Except JSErr JSVal := do
  let results ← callAsyncParallelHook container "footer" []
  return JSVal.str (jsJoin "\n" results)

/-- The lifecycle's `intro()`. -/
def intro (container : PluginContainer) : Except JSErr JSVal := do
  let results ← callAsyncParallelHook container "intro" []
  return JSVal.str (jsJoin "\n" results)

/-- The lifecycle's `outro()`. -/
def outro (container : PluginContainer) : Except JSErr JSVal := do
  let results ← callAsyncParallelHook container "outro" []
  return JSVal.str (jsJoin "\n" results)

/-- The accumulator threaded through the `transform` fold: the JavaScript
variable `output` (field `input`, the `{code, id, map}` object) plus the
closure-captured mutable state (`mapChain`, `container.__meta`, the local
`syntheticNamedExports`, initially `undefined`). -/
structure TransformState : Type where
  input : JSVal
  mapChain : List JSVal
  meta : MetaMap
  sne : JSVal

/-- The `fromResult` merge closure of `transform` (its `(result, input)`
callback).  A string result becomes `{code: result}`; a map object without
`mappings` is deleted; `meta` is merged into the container's metadata; the
first truthy `syntheticNamedExports` wins; a result carrying a `code`
(`!== undefined`) is pushed on the map chain and replaces the accumulator,
otherwise the previous accumulator is kept. -/
def transformFromResult (id : String) (result : JSVal) (st : TransformState) :
    TransformState :=
  let result1 := match result with
    | .str s => JSVal.obj [("code", .str s)]
    | _ => result
  let m := getField result1 "map"
  let result2 :=
    if !(m matches JSVal.null) && jsTypeof m == "object" && !truthy (getField m "mappings")
    then delField result1 "map" else result1
  let meta2 := handleMetaProperty st.meta id (getField result2 "meta")
  let sne2 :=
    if truthy (getField result2 "syntheticNamedExports") && (st.sne matches JSVal.undef)
    then getField result2 "syntheticNamedExports" else st.sne
  if !(getField result2 "code" matches JSVal.undef) then
    { input := JSVal.obj [("code", getField result2 "code"), ("id", .str id),
                          ("map", getField result2 "map")],
      mapChain := st.mapChain ++ [JSVal.obj [("code", getField result2 "code"),
                                             ("map", getField result2 "map")]],
      meta := meta2, sne := sne2 }
  else
    { st with meta := meta2, sne := sne2 }

/-- What the lifecycle's `transform` returns, plus the container metadata after
the call (threaded explicitly). -/
structure TransformResult : Type where
  code : JSVal
  map : JSVal
  syntheticNamedExports : JSVal
  meta : MetaMap

/-- The lifecycle's `transform(code, id)`: an async-sequential dispatch seeded
with `{code, id, map: null, syntheticNamedExports: false}`, whose `toArgs`
projects `[input.code, input.id]`, followed by handing the accumulated map
chain, the untouched original code and the module id to the external
`combineSourceMapChainFast` collaborator (parameter `combine`). -/
def transform (combine : List JSVal → String → String → JSVal)
    (container : PluginContainer) (code id : String) :
    Except JSErr TransformResult := do
  let start : TransformState :=
    { input := JSVal.obj [("code", .str code), ("id", .str id), ("map", .null),
                          ("syntheticNamedExports", .bool false)],
      mapChain := [], meta := container.__meta, sne := .undef }
  let final ← callAsyncSequentialHook container "transform"
      (fun st => [getField st.input "code", getField st.input "id"])
      (fun result st => transformFromResult id result st) start
  let map := combine final.mapChain code id
  return { code := getField final.input "code", map := map,
           syntheticNamedExports := final.sne, meta := final.meta }

/-- The `get` trap of the `bundleObj` proxy in `generateBundle`:
`bundle.find(e => e.fileName === prop)` — a linear first-match lookup,
`undefined` when no record carries the name. -/
def bundleGet (bundle : List JSVal) (prop : String) : JSVal :=
  (bundle.find? (fun e => jsStrictEqStr (getField e "fileName") prop)).getD JSVal.undef

/-- The `set` trap of the `bundleObj` proxy: `bundle.push(value)` —
unconditionally appends, whatever key is being assigned. -/
def bundleSet (bundle : List JSVal) (value : JSVal) : List JSVal :=
  bundle ++ [value]

/-- The `ownKeys`/`enumerate` traps: `bundle.map(e => e.fileName)`. -/
def bundleOwnKeys (bundle : List JSVal) : List JSVal :=
  bundle.map (fun e => getField e "fileName")

namespace Es2cjs

/-- An import/export specifier node as acorn exposes it to `__es2cjs.js`. -/
inductive Spec : Type where
  /-- `ImportDefaultSpecifier` with its local name. -/
  | importDefault : String → Spec
  /-- `ImportSpecifier`: local name, imported name. -/
  | importNamed : String → String → Spec
  /-- `ImportNamespaceSpecifier` with its local name. -/
  | importNamespace : String → Spec
  /-- `ExportSpecifier`: local name, exported name. -/
  | exportSpec : String → String → Spec

/-- A top-level statement node of interest (kinds the transform rewrites);
spans are character offsets into the source. -/
inductive Node : Type where
  /-- `ImportDeclaration`: span, specifiers, `source.value`. -/
  | importDecl : Nat → Nat → List Spec → String → Node
  /-- `ExportDefaultDeclaration` whose declaration has an `id` (named
  function/class): statement start, declaration span, declaration name. -/
  | exportDefaultNamed : Nat → Nat → Nat → String → Node
  /-- `ExportDefaultDeclaration` of an anonymous expression: statement start,
  declaration start. -/
  | exportDefaultExpr : Nat → Nat → Node
  /-- `ExportNamedDeclaration` with a named declaration (function/class). -/
  | exportNamedDecl : Nat → Nat → Nat → String → Node
  /-- `ExportNamedDeclaration` with a variable-declaration list: statement
  start, declaration span, declared identifier names. -/
  | exportNamedVars : Nat → Nat → Nat → List String → Node
  /-- `ExportNamedDeclaration` with specifiers and an optional source. -/
  | exportNamedSpecs : Nat → Nat → List Spec → Option String → Node
  /-- `ExportAllDeclaration`: span, `source.value`. -/
  | exportAll : Nat → Nat → String → Node

/-- The transform context's `options` slice: the `external` option and the
effective `output.globals` table (empty when `output` or `globals` is
missing, matching `(... && ...globals) || \x7b\x7d`). -/
structure Context : Type where
  external : ExternalConf
  globals : List (String × String)

/-- `__es2cjs.js`'s own `isExternal(context, name)` (the predicate form is
called with one argument there; its raw result is used for truthiness). -/
def isExternal (context : Option Context) (name : String) : JSVal :=
  match context with
  | none => .bool false
  | some c =>
      match c.external with
      | .unset => .bool false
      | .list l => .bool (l.contains name)
      | .func f => f name
      | .other _ => .bool false

/-- JavaScript `a || b` over an optional string (`undefined` and `""` are
falsy). -/
def jsOrStr (a : Option String) (b : String) : String :=
  match a with
  | some s => if s != "" then s else b
  | none => b

/-- The per-specifier bindings emitted for an internal import, reading
properties off the required alias. -/
def internalSpecBinding (importAlias : String) : Spec → String
  | .importDefault n => "var " ++ n ++ " = " ++ importAlias ++ ".default;"
  | .importNamed n imported => "var " ++ n ++ " = " ++ importAlias ++ "." ++ imported ++ ";"
  | .importNamespace n => "var " ++ n ++ " = " ++ importAlias ++ ";"
  | .exportSpec _ _ => ""

/-- `resolveInternalImport(context, response, node)`: the alias index is the
current dependency-list length, the source specifier is pushed, and every
specifier of the import binds off the alias.  Returns
(transpiled, importAlias, new dependency list). -/
def resolveInternalImport (deps : List String) (specifiers : List Spec)
    (source : String) : String × String × List String :=
  let importIndex := deps.length
  let importAlias := "_i" ++ toString importIndex
  let base := "var " ++ importAlias ++ " = require(__nollup__" ++ toString importIndex ++ ");"
  let deps2 := deps ++ [source]
  let transpiled := base ++ String.join (specifiers.map (internalSpecBinding importAlias))
  (transpiled, importAlias, deps2)

/-- The per-specifier bindings emitted for an external import (note the
namespace case has no trailing semicolon, as in the source). -/
def externalSpecBinding (importAlias : String) : Spec → String
  | .importDefault n =>
      "var " ++ n ++ " = " ++ importAlias ++ " && " ++ importAlias ++
      ".hasOwnProperty(\"default\")? " ++ importAlias ++ ".default : " ++ importAlias ++ ";"
  | .importNamed n imported => "var " ++ n ++ " = " ++ importAlias ++ "." ++ imported ++ ";"
  | .importNamespace n => "var " ++ n ++ " = " ++ importAlias
  | .exportSpec _ _ => ""

/-- `resolveExternalImport(context, response, node)`: picks a global name from
the output-globals map, else the default import's local name, else the raw
specifier; binds an `_e`-prefixed alias to `window.<global>`, then the
specifier bindings.  `isExportAll` is `node.type === 'ExportAllDeclaration'`. -/
def resolveExternalImport (context : Option Context) (specifiers : List Spec)
    (source : String) (isExportAll : Bool) : String × String :=
  let globalConf := match context with
    | some c => c.globals
    | none => []
  if specifiers.length > 0 || isExportAll then
    let defaultLocal := (specifiers.findSome? (fun s =>
      match s with
      | .importDefault n => some n
      | _ => none))
    let globalName :=
      jsOrStr ((globalConf.find? (fun kv => kv.1 == source)).map (fun kv => kv.2))
        (jsOrStr defaultLocal source)
    let importAlias := "_e" ++ globalName
    let base := "var " ++ importAlias ++ " = window." ++ globalName ++ ";"
    let transpiled :=
      if specifiers.length > 0 then
        base ++ String.join (specifiers.map (externalSpecBinding importAlias))
      else base
    (transpiled, importAlias)
  else ("", "")

/-- `resolveImport(context, response, node)`: dispatch on the external
predicate.  Returns (transpiled, importAlias, new dependency list). -/
def resolveImport (context : Option Context) (deps : List String)
    (specifiers : List Spec) (source : String) (isExportAll : Bool) :
    String × String × List String :=
  if truthy (isExternal context source) then
    let r := resolveExternalImport context specifiers source isExportAll
    (r.1, r.2, deps)
  else
    resolveInternalImport deps specifiers source

/-- A recorded edit-buffer operation (`magic-string` calls, in issue order). -/
inductive Edit : Type where
  | overwrite : Nat → Nat → String → Edit
  | appendRight : Nat → String → Edit

/-- Substring of `s` on character offsets `[a, b)`. -/
def strSlice (s : String) (a b : Nat) : String :=
  String.mk ((s.toList.drop a).take (b - a))

/-- Apply an in-order, non-overlapping edit sequence to the source, keeping
untouched regions verbatim — the behaviour of the magic-string collaborator on
exactly the edit sequences this transform issues (node spans are visited in
increasing, disjoint order). -/
def msApply (input : String) (cursor : Nat) : List Edit → String
  | [] => String.mk (input.toList.drop cursor)
  | .overwrite a b t :: rest => strSlice input cursor a ++ t ++ msApply input b rest
  | .appendRight p t :: rest => strSlice input cursor p ++ t ++ msApply input p rest

/-- One iteration of the statement loop: appends this node's edits and
dependency registrations to the running state. -/
def processNode (context : Option Context) (st : List String × List Edit)
    (node : Node) : List String × List Edit :=
  let deps := st.1
  let edits := st.2
  match node with
  | .importDecl a b specifiers source =>
      let r := resolveImport context deps specifiers source false
      (r.2.2, edits ++ [.overwrite a b r.1])
  | .exportDefaultNamed a declStart declEnd name =>
      (deps, edits ++ [.overwrite a declStart "",
        .appendRight declEnd ("; module.exports.default = " ++ name ++ ";")])
  | .exportDefaultExpr a declStart =>
      (deps, edits ++ [.overwrite a declStart "module.exports.default = "])
  | .exportNamedDecl a declStart declEnd name =>
      (deps, edits ++ [.overwrite a declStart "",
        .appendRight declEnd ("; module.exports." ++ name ++ " = " ++ name ++ ";")])
  | .exportNamedVars a declStart declEnd names =>
      let assigns := "; " ++ String.intercalate ", "
        (names.map (fun n => "module.exports." ++ n ++ " = " ++ n)) ++ ";"
      (deps, edits ++ [.overwrite a declStart "", .appendRight declEnd assigns])
  | .exportNamedSpecs a b specifiers source =>
      let pre : String × Option String × List String :=
        match source with
        | some src =>
            let r := resolveImport context deps specifiers src false
            (r.1, some r.2.1, r.2.2)
        | none => ("", none, deps)
      let body := String.join (specifiers.map (fun s =>
        match s with
        | .exportSpec localName exportedName =>
            match pre.2.1 with
            | some importAlias =>
                "module.exports." ++ exportedName ++ " = " ++ importAlias ++ "." ++ localName ++ ";"
            | none =>
                "module.exports." ++ exportedName ++ " = " ++ localName ++ ";"
        | _ => ""))
      (pre.2.2, edits ++ [.overwrite a b (pre.1 ++ body)])
  | .exportAll a b source =>
      let r := resolveImport context deps [] source true
      let importAlias := r.2.1
      let transpiled := r.1 ++ "for(var k in " ++ importAlias ++
        ")\x7bk !== \"default\" && (module.exports[k] = " ++ importAlias ++ "[k])\x7d"
      (r.2.2, edits ++ [.overwrite a b transpiled])

/-- The structured error acorn raises on invalid syntax (`e.loc` is the
position; acorn lines are 1-based). -/
structure ParseErr : Type where
  name : String
  message : String
  line : Nat
  col : Nat

/-- `arr[i]` on a string array: `"undefined"` when out of range (the code
concatenates the raw indexed value into the message). -/
def jsIndexStr (l : List String) (i : Nat) : String :=
  (l.get? i).getD "undefined"

/-- `String.prototype.padStart(target)` with the default space pad. -/
def jsPadStart (s : String) (target : Nat) : String :=
  if s.length ≥ target then s
  else String.mk (List.replicate (target - s.length) ' ') ++ s

/-- The diagnostic thrown on a parse failure: error line, the offending source
line indented four spaces, and a caret padded to the failing column. -/
def formatParseError (input : String) (e : ParseErr) : String :=
  e.name ++ ": " ++ e.message ++ "\n" ++
  "    " ++ jsIndexStr (input.splitOn "\n") (e.line - 1) ++ "\n" ++
  "    " ++ jsPadStart "^" e.col

/-- The exported transform `module.exports = function (input, context)`.  The
acorn parser is the external collaborator `parse`; a parse failure throws the
formatted diagnostic (the source throws a plain string), otherwise every
statement is rewritten on one shared edit buffer and the final text plus the
dependency list is returned. -/
def es2cjs (parse : String → Except ParseErr (List Node))
    (context : Option Context) (input : String) :
    Except String (String × List String) :=
  match parse input with
  | .error e => .error (formatParseError input e)
  | .ok body =>
      let st := body.foldl (processNode context) ([], [])
      .ok (msApply input 0 st.2, st.1)

end Es2cjs

/-! ## Shared helpers for the theorems -/

/-- A plugin implementing exactly one hook. -/
def mkPlugin (hook : String) (entry : HookEntry) : Plugin :=
  ⟨fun h => if h == hook then entry else .val .undef⟩

/-- A plugin hook that declines (returns `undefined`). -/
def greetAbsent : Plugin := mkPlugin "greet" (.fn (fun _ => .ok .undef))

/-- A plugin hook answering `"X"`. -/
def greetX : Plugin := mkPlugin "greet" (.fn (fun _ => .ok (.str "X")))

/-- If every plugin of a prefix answers absent, the first-wins loop behaves as
if the prefix were not there. -/
theorem callAsyncFirstHookGo_prefix_absent (hook : String) (args : List JSVal) :
    ∀ (l1 : List Plugin),
      (∀ q ∈ l1, ∃ w, _callAsyncHook q hook args = .ok w ∧ isAbsent w = true) →
      ∀ (rest : List Plugin),
        callAsyncFirstHookGo hook args (l1 ++ rest) = callAsyncFirstHookGo hook args rest := by
  intro l1
  induction l1 with
  | nil => intro _ rest; rfl
  | cons q l1' ih =>
      intro h rest
      obtain ⟨w, hw, habs⟩ := h q (List.mem_cons_self q l1')
      have ht : ∀ q' ∈ l1', ∃ w, _callAsyncHook q' hook args = .ok w ∧ isAbsent w = true :=
        fun q' hq' => h q' (List.mem_cons_of_mem q hq')
      simp only [List.cons_append, callAsyncFirstHookGo, hw, habs, if_true]
      exact ih ht rest

/-- C1: async-first dispatch awaits each plugin's hook in registration order
and returns the first non-absent result, where only `null`/`undefined` count
as absent (an empty string and `0` count as opinions); any plugins after the
winner are never consulted (the result is the same for every choice of their
hooks).  In particular, with P1 absent, P2 answering `"X"` and P3 carrying any
hook body at all, the result is `"X"`. -/
theorem asyncFirst_returns_first_opinion :
    (∀ (l1 : List Plugin) (p : Plugin) (hook : String) (args : List JSVal) (v : JSVal),
      (∀ q ∈ l1, ∃ w, _callAsyncHook q hook args = .ok w ∧ isAbsent w = true) →
      _callAsyncHook p hook args = .ok v → isAbsent v = false →
      ∀ (l2 : List Plugin) (cfg : Option RollupConfigContainer) (m : MetaMap),
        callAsyncFirstHook ⟨l1 ++ p :: l2, cfg, m⟩ hook args = .ok v) ∧
    isAbsent (.str "") = false ∧ isAbsent (.num 0) = false ∧
    (∀ f3 : List JSVal → Except JSErr JSVal,
      callAsyncFirstHook ⟨[greetAbsent, greetX, mkPlugin "greet" (.fn f3)], none, []⟩
        "greet" [] = .ok (.str "X")) := by
  refine ⟨?_, rfl, rfl, fun f3 => rfl⟩
  intro l1 p hook args v h1 hp hv l2 cfg m
  show callAsyncFirstHookGo hook args (l1 ++ p :: l2) = .ok v
  rw [callAsyncFirstHookGo_prefix_absent hook args l1 h1 (p :: l2)]
  simp [callAsyncFirstHookGo, hp, hv]

/-- Witness for C1 at P1/P2/P3 with P3 answering `"Y"`. -/
theorem asyncFirst_returns_first_opinion_witness :
    callAsyncFirstHook
      ⟨[greetAbsent, greetX, mkPlugin "greet" (.fn (fun _ => .ok (.str "Y")))], none, []⟩
      "greet" [] = .ok (.str "X") :=
  asyncFirst_returns_first_opinion.1 [greetAbsent] greetX "greet" [] (.str "X")
    (by
      intro q hq
      rw [List.mem_singleton] at hq
      subst hq
      exact ⟨.undef, rfl, rfl⟩)
    rfl rfl [mkPlugin "greet" (.fn (fun _ => .ok (.str "Y")))] none []

/-- The async-sequential convention as the spec words it (§4.1): a monadic
left fold from the seed, projecting each plugin's arguments from the current
accumulated value, folding every non-absent result in via the merge function
and leaving the accumulator untouched for absent results. -/
def seqHookSpec {σ : Type} (plugins : List Plugin) (hook : String)
    (toArgs : σ → List JSVal) (fromResult : JSVal → σ → σ) (start : σ) :
    Except JSErr σ :=
  plugins.foldlM
    (fun output p =>
      (_callAsyncHook p hook (toArgs output)).map
        (fun hr => if isAbsent hr then output else fromResult hr output))
    start

/-- A plugin whose hook adds `k` to an integer accumulator passed as its sole
numeric argument (declining on any other argument shape). -/
def addingPlugin (k : Int) : Plugin :=
  mkPlugin "acc" (.fn (fun args =>
    match args with
    | [.num n] => .ok (.num (n + k))
    | _ => .ok .undef))

/-- C2: async-sequential dispatch visits every plugin in registration order,
computes hook arguments from the current accumulated value via the caller's
projection, folds each non-absent result in via the caller's merge function,
leaves the accumulator unchanged on absent results and returns the final
accumulator — i.e. it coincides with the left fold `seqHookSpec` on every
input; and with seed 0 and plugins contributing +1, absent, +3 the final value
is 4. -/
theorem asyncSequential_is_fold :
    (∀ (σ : Type) (plugins : List Plugin) (hook : String) (toArgs : σ → List JSVal)
        (fromResult : JSVal → σ → σ) (start : σ)
        (cfg : Option RollupConfigContainer) (m : MetaMap),
      callAsyncSequentialHook ⟨plugins, cfg, m⟩ hook toArgs fromResult start =
        seqHookSpec plugins hook toArgs fromResult start) ∧
    callAsyncSequentialHook
      ⟨[addingPlugin 1, mkPlugin "acc" (.fn (fun _ => .ok .undef)), addingPlugin 3], none, []⟩
      "acc" (fun n => [.num n])
      (fun hr n => match hr with | .num k => k | _ => n) (0 : Int) = .ok 4 := by
  refine ⟨?_, rfl⟩
  intro σ plugins hook toArgs fromResult start cfg m
  show callAsyncSequentialHookGo hook toArgs fromResult start plugins =
    seqHookSpec plugins hook toArgs fromResult start
  induction plugins generalizing start with
  | nil => rfl
  | cons p rest ih =>
      rw [callAsyncSequentialHookGo, seqHookSpec, List.foldlM_cons]
      cases h : _callAsyncHook p hook (toArgs start) with
      | error e => rfl
      | ok hr => exact ih _

/-- Three banner hooks answering `"a"`, absent, `"b"` in order. -/
def bannerDemoContainer : PluginContainer :=
  ⟨[mkPlugin "banner" (.fn (fun _ => .ok (.str "a"))),
    mkPlugin "banner" (.fn (fun _ => .ok .undef)),
    mkPlugin "banner" (.fn (fun _ => .ok (.str "b")))], none, []⟩

/-- C3 counterexample: `banner` joins the raw `Promise.all` results, and
`Array.prototype.join` renders an absent (`undefined`) result as an empty
string instead of excluding it — so plugins answering `"a"`, absent, `"b"`
join to `"a\n\nb"`, not `"a\nb"` as the claim states. -/
theorem banner_absent_not_excluded_cex :
    banner bannerDemoContainer = .ok (.str "a\n\nb") ∧
    banner bannerDemoContainer ≠ .ok (.str "a\nb") := by
  refine ⟨rfl, fun h => ?_⟩
  rw [show banner bannerDemoContainer = .ok (.str "a\n\nb") from rfl] at h
  injection h with h1
  injection h1 with h2
  exact absurd h2 (by decide)

/-- C3 amended: `banner` (and identically `footer`/`intro`/`outro`) joins the
results of all plugins with a newline separator, with absent results kept in
the collected list and rendered as empty strings by the join (an absent plugin
contributes an empty line, not nothing); `"a"`, absent, `"b"` give
`"a\n\nb"`. -/
theorem banner_joins_absent_as_empty_line :
    (∀ (c : PluginContainer) (rs : List JSVal),
      callAsyncParallelHook c "banner" [] = .ok rs →
      banner c = .ok (.str (jsJoin "\n" rs))) ∧
    (∀ (sep : String) (l1 l2 : List JSVal),
      jsJoin sep (l1 ++ JSVal.undef :: l2) = jsJoin sep (l1 ++ JSVal.str "" :: l2)) ∧
    jsJoin "\n" [.str "a", .undef, .str "b"] = "a\n\nb" := by
  refine ⟨?_, ?_, rfl⟩
  · intro c rs h
    show (callAsyncParallelHook c "banner" []).bind _ = _
    rw [h]
    rfl
  · intro sep l1 l2
    induction l1 with
    | nil => cases l2 <;> rfl
    | cons v l1' ih =>
        cases l1' with
        | nil =>
            cases l2 <;> simp [jsJoin, jsElemStr]
        | cons w l1'' =>
            simp only [List.cons_append, jsJoin]
            exact congrArg (fun t => jsElemStr v ++ sep ++ t) ih

/-- Witness for C3's amended theorem at the `"a"`, absent, `"b"` container. -/
theorem banner_joins_absent_as_empty_line_witness :
    banner bannerDemoContainer = .ok (.str (jsJoin "\n" [.str "a", .undef, .str "b"])) :=
  banner_joins_absent_as_empty_line.1 bannerDemoContainer [.str "a", .undef, .str "b"] rfl

/-- Deleting one property leaves every other property's lookup unchanged. -/
theorem getField_delField (v : JSVal) (a b : String) (h : a ≠ b) :
    getField (delField v b) a = getField v a := by
  cases v with
  | obj fields =>
      show getField (JSVal.obj (fields.filter _)) a = _
      induction fields with
      | nil => rfl
      | cons kv rest ih =>
          by_cases hk : kv.1 = b
          · have hb : (kv.1 != b) = false := by simp [hk]
            have ha : (kv.1 == a) = false := by
              simp [hk]
              exact fun hab => absurd hab.symm h
            simp only [getField, List.filter_cons, hb, List.find?]
            rw [show ((kv.1 == a) = false) from ha]
            simpa [getField] using ih
          · have hb : (kv.1 != b) = true := by simp [hk]
            by_cases ha : kv.1 = a
            · have ha' : (kv.1 == a) = true := by simp [ha]
              simp [getField, List.filter_cons, hb, List.find?, ha']
            · have ha' : (kv.1 == a) = false := by simp [ha]
              simp only [getField, List.filter_cons, hb, if_true, List.find?, ha']
              simpa [getField] using ih
  | undef => rfl
  | null => rfl
  | bool x => rfl
  | num x => rfl
  | str x => rfl
  | arr x => rfl

/-- Transform hook P1: rewrites the code to `"C1"` with map `m1`. -/
def transformP1 : Plugin :=
  mkPlugin "transform" (.fn (fun _ =>
    .ok (.obj [("code", .str "C1"), ("map", .obj [("mappings", .str "m1")])])))

/-- Transform hook P2: rewrites the code to `"C2"` with map `m2` and sets
`meta.x = 1`. -/
def transformP2 : Plugin :=
  mkPlugin "transform" (.fn (fun _ =>
    .ok (.obj [("code", .str "C2"), ("map", .obj [("mappings", .str "m2")]),
               ("meta", .obj [("x", .num 1)])])))

/-- C4: with plugins P1 then P2 each returning new code and a map, and P2
setting `meta.x = 1`, for every combiner and every original code and module
id: the chain handed to the map-combination collaborator has exactly the two
`{code, map}` entries in P1-then-P2 order, the collaborator receives the
untouched original code and module id, and the container's metadata for the
module includes `x: 1` afterwards; and a plugin result that carries no `code`
pushes no chain entry and leaves the accumulator (the next plugin's input)
unchanged. -/
theorem transform_chain_order_and_meta :
    (∀ (combine : List JSVal → String → String → JSVal) (code id : String),
      transform combine ⟨[transformP1, transformP2], none, []⟩ code id =
        .ok { code := .str "C2",
              map := combine
                [.obj [("code", .str "C1"), ("map", .obj [("mappings", .str "m1")])],
                 .obj [("code", .str "C2"), ("map", .obj [("mappings", .str "m2")])]]
                code id,
              syntheticNamedExports := .undef,
              meta := [(id, [("x", .num 1)])] }) ∧
    (∀ (id : String) (fields : List (String × JSVal)) (st : TransformState),
      getField (.obj fields) "code" = .undef →
      (transformFromResult id (.obj fields) st).input = st.input ∧
      (transformFromResult id (.obj fields) st).mapChain = st.mapChain) := by
  constructor
  · intro combine code id
    rfl
  · intro id fields st h
    have hcode : getField
        (if !((getField (JSVal.obj fields) "map") matches JSVal.null) &&
            jsTypeof (getField (JSVal.obj fields) "map") == "object" &&
            !truthy (getField (getField (JSVal.obj fields) "map") "mappings")
         then delField (JSVal.obj fields) "map" else JSVal.obj fields) "code" = .undef := by
      split
      · rw [getField_delField _ _ _ (by decide)]
        exact h
      · exact h
    unfold transformFromResult
    simp only [hcode]
    exact ⟨rfl, rfl⟩

/-- Witness for C4: the concrete two-plugin transform with a combiner that
records its arguments, and a code-less result leaving the seed accumulator
untouched. -/
theorem transform_chain_order_and_meta_witness :
    (transform (fun chain orig mid => .arr (chain ++ [.str orig, .str mid]))
      ⟨[transformP1, transformP2], none, []⟩ "ORIG" "/mod.js" =
      .ok { code := .str "C2",
            map := .arr
              [.obj [("code", .str "C1"), ("map", .obj [("mappings", .str "m1")])],
               .obj [("code", .str "C2"), ("map", .obj [("mappings", .str "m2")])],
               .str "ORIG", .str "/mod.js"],
            syntheticNamedExports := .undef,
            meta := [("/mod.js", [("x", .num 1)])] }) ∧
    (transformFromResult "/mod.js" (.obj [("meta", .obj [("x", .num 1)])])
        ⟨.obj [("code", .str "S")], [], [], .undef⟩).input = .obj [("code", .str "S")] := by
  constructor
  · exact transform_chain_order_and_meta.1
      (fun chain orig mid => .arr (chain ++ [.str orig, .str mid])) "ORIG" "/mod.js"
  · exact (transform_chain_order_and_meta.2 "/mod.js" [("meta", .obj [("x", .num 1)])]
      ⟨.obj [("code", .str "S")], [], [], .undef⟩ rfl).1

namespace Es2cjs

/-- The dependency specifiers one statement registers: the source of every
plain import, re-export or export-all whose specifier the external predicate
does not claim. -/
def internalDepContrib (context : Option Context) : Node → List String
  | .importDecl _ _ _ source => if truthy (isExternal context source) then [] else [source]
  | .exportNamedSpecs _ _ _ (some source) =>
      if truthy (isExternal context source) then [] else [source]
  | .exportAll _ _ source => if truthy (isExternal context source) then [] else [source]
  | _ => []

/-- The dependency list a whole statement sequence registers, in encounter
order. -/
def internalDepSources (context : Option Context) : List Node → List String
  | [] => []
  | n :: rest => internalDepContrib context n ++ internalDepSources context rest

/-- Each statement appends its dependency registrations to the running list
(never rewriting earlier entries). -/
theorem processNode_deps (context : Option Context) (st : List String × List Edit)
    (n : Node) : (processNode context st n).1 = st.1 ++ internalDepContrib context n := by
  cases n with
  | importDecl a b specifiers source =>
      by_cases h : truthy (isExternal context source) = true
      · simp [processNode, resolveImport, internalDepContrib, h]
      · simp at h
        simp [processNode, resolveImport, resolveInternalImport, internalDepContrib, h]
  | exportDefaultNamed a ds de name => simp [processNode, internalDepContrib]
  | exportDefaultExpr a ds => simp [processNode, internalDepContrib]
  | exportNamedDecl a ds de name => simp [processNode, internalDepContrib]
  | exportNamedVars a ds de names => simp [processNode, internalDepContrib]
  | exportNamedSpecs a b specifiers source =>
      cases source with
      | none => simp [processNode, internalDepContrib]
      | some src =>
          by_cases h : truthy (isExternal context src) = true
          · simp [processNode, resolveImport, internalDepContrib, h]
          · simp at h
            simp [processNode, resolveImport, resolveInternalImport, internalDepContrib, h]
  | exportAll a b source =>
      by_cases h : truthy (isExternal context source) = true
      · simp [processNode, resolveImport, internalDepContrib, h]
      · simp at h
        simp [processNode, resolveImport, resolveInternalImport, internalDepContrib, h]

/-- The statement loop's final dependency list is the seed followed by every
statement's registrations in encounter order. -/
theorem foldl_processNode_deps (context : Option Context) :
    ∀ (body : List Node) (st : List String × List Edit),
      (body.foldl (processNode context) st).1 = st.1 ++ internalDepSources context body := by
  intro body
  induction body with
  | nil => intro st; simp [internalDepSources]
  | cons n rest ih =>
      intro st
      rw [List.foldl_cons, ih (processNode context st n), processNode_deps,
        internalDepSources, List.append_assoc]

end Es2cjs

/-- C5: the transform registers internal dependency specifiers strictly in
declaration-encounter order — the final dependency list is exactly the
encounter-order sequence of non-external sources, and each internal import is
transpiled against the alias and placeholder index equal to the number of
dependencies registered before it (indices are handed out by current list
length, so they are never reused or reordered).  In particular
`import a from "./m"` as a module's first dependency yields dependency list
`["./m"]` and the rewrite
`var _i0 = require(__nollup__0);var a = _i0.default;`. -/
theorem es2cjs_dep_indices :
    (∀ (context : Option Es2cjs.Context)
        (parse : String → Except Es2cjs.ParseErr (List Es2cjs.Node))
        (input : String) (body : List Es2cjs.Node),
      parse input = .ok body →
      ∃ out, Es2cjs.es2cjs parse context input =
        .ok (out, Es2cjs.internalDepSources context body)) ∧
    (∀ (deps : List String) (specifiers : List Es2cjs.Spec) (source : String),
      (Es2cjs.resolveInternalImport deps specifiers source).2.2 = deps ++ [source] ∧
      (Es2cjs.resolveInternalImport deps specifiers source).2.1 =
        "_i" ++ toString deps.length ∧
      ∃ tail, (Es2cjs.resolveInternalImport deps specifiers source).1 =
        "var " ++ ("_i" ++ toString deps.length) ++ " = require(__nollup__" ++
          toString deps.length ++ ");" ++ tail) ∧
    Es2cjs.es2cjs (fun _ => .ok [.importDecl 0 19 [.importDefault "a"] "./m"]) none
      "import a from \"./m\"" =
      .ok ("var _i0 = require(__nollup__0);var a = _i0.default;", ["./m"]) := by
  refine ⟨?_, ?_, rfl⟩
  · intro context parse input body h
    refine ⟨Es2cjs.msApply input 0 (body.foldl (Es2cjs.processNode context) ([], [])).2, ?_⟩
    have hd := Es2cjs.foldl_processNode_deps context body ([], [])
    simp only [List.nil_append] at hd
    simp [Es2cjs.es2cjs, h, hd]
  · intro deps specifiers source
    exact ⟨rfl, rfl, ⟨_, rfl⟩⟩

/-- Witness for C5: a two-import module where the second import's placeholder
index is 1, and the general dependency-order equation at that module. -/
theorem es2cjs_dep_indices_witness :
    (∃ out, Es2cjs.es2cjs
        (fun _ => .ok [.importDecl 0 20 [.importDefault "a"] "./m",
                       .importDecl 21 41 [.importDefault "b"] "./n"])
        none "import a from \"./m\";import b from \"./n\";" =
      .ok (out, Es2cjs.internalDepSources none
        [.importDecl 0 20 [.importDefault "a"] "./m",
         .importDecl 21 41 [.importDefault "b"] "./n"])) ∧
    (Es2cjs.resolveInternalImport ["./m"] [.importDefault "b"] "./n").2.1 = "_i1" ∧
    (Es2cjs.resolveInternalImport ["./m"] [.importDefault "b"] "./n").2.2 = ["./m", "./n"] := by
  refine ⟨es2cjs_dep_indices.1 none _ _ _ rfl, ?_, ?_⟩
  · rw [(es2cjs_dep_indices.2.1 ["./m"] [.importDefault "b"] "./n").2.1]
    rfl
  · rw [(es2cjs_dep_indices.2.1 ["./m"] [.importDefault "b"] "./n").1]
    rfl

/-- C6: whenever the async-first `resolveId` dispatch yields `false`, or the
specifier matches the configured external list/predicate, `resolveId` answers
`{id: specifier, external: true}` with the specifier unmodified (no path
normalization or filesystem fallback is consulted — the result holds for every
choice of path operations) and the metadata untouched. -/
theorem resolveId_external_short_circuit :
    ∀ (po : PathOps) (c : PluginContainer) (id parentFilePath : String) (hr : JSVal),
      callAsyncFirstHook c "resolveId" [.str id, .str parentFilePath] = .ok hr →
      (hr = .bool false ∨ truthy (isExternal c.__config id) = true) →
      resolveId po c id parentFilePath =
        .ok (.obj [("id", .str id), ("external", .bool true)], c.__meta) := by
  intro po c id parentFilePath hr hcall hcond
  rcases hcond with h | h
  · subst h
    simp only [resolveId, hcall, Bind.bind, Except.bind]
    rfl
  · simp only [resolveId, hcall, Bind.bind, Except.bind]
    clear hcall
    rw [if_pos (by rw [h, Bool.or_true])]
    rfl

/-- A configuration marking `"jquery"` external, with no plugins. -/
def externalDemoContainer : PluginContainer := ⟨[], some ⟨.list ["jquery"]⟩, []⟩

/-- Path operations that never fire in the short-circuit branch. -/
def trivialPathOps : PathOps := ⟨fun _ => true, id, fun a _ => a, "", id⟩

/-- Witness for C6 at a specifier on the external list (the hook dispatch
found no opinion). -/
theorem resolveId_external_short_circuit_witness :
    resolveId trivialPathOps externalDemoContainer "jquery" "/parent.js" =
      .ok (.obj [("id", .str "jquery"), ("external", .bool true)], []) :=
  resolveId_external_short_circuit trivialPathOps externalDemoContainer "jquery"
    "/parent.js" .undef rfl (Or.inr rfl)

/-- A `load` hook answering an object whose `code` is the empty string. -/
def loadEmptyCodeContainer : PluginContainer :=
  ⟨[mkPlugin "load" (.fn (fun _ => .ok (.obj [("code", .str "")])))], none, []⟩

/-- C7 counterexample: the winning `load` result `{code: ""}` has a `code`
property, yet `load` does not return it as-is — the `hr.code` truthiness test
rejects the empty string and the default filesystem read runs instead
(returning the disk contents, here `"DISK"`). -/
theorem load_empty_code_reads_disk_cex :
    load trivialPathOps (fun _ => .ok "DISK") loadEmptyCodeContainer "/f.js" "" =
      .ok (.obj [("code", .str "DISK")], []) ∧
    load trivialPathOps (fun _ => .ok "DISK") loadEmptyCodeContainer "/f.js" "" ≠
      .ok (.obj [("code", .str "")], []) := by
  refine ⟨rfl, fun h => ?_⟩
  rw [show load trivialPathOps (fun _ => .ok "DISK") loadEmptyCodeContainer "/f.js" "" =
    .ok (.obj [("code", .str "DISK")], []) from rfl] at h
  injection h with h1
  injection h1 with h2 h3
  injection h2 with h4
  injection h4 with h5 h6
  injection h5 with h7 h8
  injection h8 with h9
  exact absurd h9 (by decide)

/-- C7 amended: a winning `load` result that is an object with a truthy `code`
property (e.g. a non-empty string) has its `meta` merged into the module's
metadata and is returned as-is; the default filesystem read runs when no
plugin produced an opinion — and also when the winning object's `code` is
falsy (such as the empty string), as the counterexample forces. -/
theorem load_truthy_code_returned_as_is :
    (∀ (po : PathOps) (fsRead : String → Except JSErr String) (c : PluginContainer)
        (filePath parentFilePath : String) (hr : JSVal),
      callAsyncFirstHook c "load" [.str filePath, .str parentFilePath] = .ok hr →
      jsTypeof hr = "object" → truthy (getField hr "code") = true →
      load po fsRead c filePath parentFilePath =
        .ok (hr, handleMetaProperty c.__meta filePath (getField hr "meta"))) ∧
    (∀ (po : PathOps) (fsRead : String → Except JSErr String) (c : PluginContainer)
        (filePath parentFilePath src : String),
      callAsyncFirstHook c "load" [.str filePath, .str parentFilePath] = .ok .undef →
      fsRead (if po.isAbsolute filePath then filePath else po.resolveCwd filePath) = .ok src →
      load po fsRead c filePath parentFilePath = .ok (.obj [("code", .str src)], c.__meta)) := by
  constructor
  · intro po fsRead c filePath parentFilePath hr hcall htype hcode
    cases hr with
    | obj fields =>
        have hcond : (jsTypeof (JSVal.obj fields) == "object" &&
            truthy (getField (JSVal.obj fields) "code")) = true := by
          rw [hcode]; rfl
        simp only [load, hcall, Bind.bind, Except.bind]
        rw [if_pos hcond]
        rfl
    | undef => exact absurd htype (by decide)
    | null =>
        simp only [getField, truthy] at hcode
        exact absurd hcode (by decide)
    | bool x =>
        simp only [jsTypeof] at htype
        exact absurd htype (by decide)
    | num x =>
        simp only [jsTypeof] at htype
        exact absurd htype (by decide)
    | str x =>
        simp only [jsTypeof] at htype
        exact absurd htype (by decide)
    | arr x =>
        simp only [getField, truthy] at hcode
        exact absurd hcode (by decide)
  · intro po fsRead c filePath parentFilePath src hcall hread
    simp only [load, hcall, Bind.bind, Except.bind]
    rw [if_neg (by decide), if_pos (by decide), hread]
    rfl

/-- A `load` hook answering `{code: "SRC", meta: {y: 2}}`. -/
def loadSrcContainer : PluginContainer :=
  ⟨[mkPlugin "load" (.fn (fun _ =>
      .ok (.obj [("code", .str "SRC"), ("meta", .obj [("y", .num 2)])])))], none, []⟩

/-- Witness for C7's amended theorem: a truthy-`code` object is returned
as-is with its meta merged, and a no-opinion container falls back to disk. -/
theorem load_truthy_code_returned_as_is_witness :
    load trivialPathOps (fun _ => .ok "DISK") loadSrcContainer "/f.js" "" =
      .ok (.obj [("code", .str "SRC"), ("meta", .obj [("y", .num 2)])],
           handleMetaProperty [] "/f.js" (.obj [("y", .num 2)])) ∧
    load trivialPathOps (fun _ => .ok "DISK") ⟨[], none, []⟩ "/f.js" "" =
      .ok (.obj [("code", .str "DISK")], []) := by
  constructor
  · exact load_truthy_code_returned_as_is.1 trivialPathOps (fun _ => .ok "DISK")
      loadSrcContainer "/f.js" ""
      (.obj [("code", .str "SRC"), ("meta", .obj [("y", .num 2)])]) rfl rfl rfl
  · exact load_truthy_code_returned_as_is.2 trivialPathOps (fun _ => .ok "DISK")
      ⟨[], none, []⟩ "/f.js" "" "DISK" rfl rfl

/-- A plugin whose `"h"` entry is the numeric literal `42`. -/
def numericLiteralContainer : PluginContainer :=
  ⟨[mkPlugin "h" (.val (.num 42))], none, []⟩

/-- C8 counterexample: a plugin whose hook entry is the non-callable,
non-string literal `42` is not returned as-is by the async path — the code
only special-cases string-typed entries, and for any other truthy entry it
attempts `.apply` on the literal, raising a `TypeError` that aborts the
dispatch. -/
theorem literal_nonstring_entry_cex :
    callAsyncFirstHook numericLiteralContainer "h" [] = .error .typeError ∧
    callAsyncFirstHook numericLiteralContainer "h" [] ≠ .ok (.num 42) := by
  refine ⟨rfl, fun h => ?_⟩
  rw [show callAsyncFirstHook numericLiteralContainer "h" [] = .error .typeError from rfl] at h
  exact Except.noConfusion h

/-- C8 amended: a hook entry that is a *string* literal is returned as-is by
the async call path without invoking anything (async-first hands it straight
back, even an empty string); a plugin that omits the hook contributes absent.
(A non-string non-callable entry is not returned as-is: truthy ones raise a
`TypeError`, per the counterexample.) -/
theorem string_literal_entry_returned_as_is :
    (∀ (p : Plugin) (hook : String) (args : List JSVal) (s : String),
      p.execute hook = .val (.str s) → _callAsyncHook p hook args = .ok (.str s)) ∧
    (∀ (p : Plugin) (hook : String) (args : List JSVal),
      p.execute hook = .val .undef → _callAsyncHook p hook args = .ok .undef) ∧
    (∀ (s : String) (rest : List Plugin) (hook : String) (args : List JSVal)
        (cfg : Option RollupConfigContainer) (m : MetaMap),
      callAsyncFirstHook ⟨mkPlugin hook (.val (.str s)) :: rest, cfg, m⟩ hook args =
        .ok (.str s)) := by
  refine ⟨?_, ?_, ?_⟩
  · intro p hook args s h
    simp [_callAsyncHook, h]
  · intro p hook args h
    simp [_callAsyncHook, h, truthy]
  · intro s rest hook args cfg m
    simp [callAsyncFirstHook, callAsyncFirstHookGo, _callAsyncHook, mkPlugin, isAbsent]

/-- C9: a rejected parse is fatal for the module's transform: the function
returns the thrown diagnostic instead of any rewritten output or dependency
list (the `Except.error` carries no partial rewrite), and the diagnostic is
the parser's error line followed by the offending source line (selected by the
1-based error line) and a caret line, both indented four spaces; the caret
line has length `col` with the `'^'` as its last character after `col - 1`
spaces, i.e. the caret sits under the character at (1-based) column `col` of
the equally indented source line. -/
theorem parse_failure_is_fatal :
    (∀ (parse : String → Except Es2cjs.ParseErr (List Es2cjs.Node))
        (context : Option Es2cjs.Context) (input : String) (e : Es2cjs.ParseErr),
      parse input = .error e →
      Es2cjs.es2cjs parse context input = .error (Es2cjs.formatParseError input e) ∧
      Es2cjs.formatParseError input e =
        e.name ++ ": " ++ e.message ++ "\n" ++
        "    " ++ Es2cjs.jsIndexStr (input.splitOn "\n") (e.line - 1) ++ "\n" ++
        "    " ++ Es2cjs.jsPadStart "^" e.col) ∧
    (∀ c : Nat, 1 ≤ c →
      (Es2cjs.jsPadStart "^" c).length = c ∧
      (Es2cjs.jsPadStart "^" c).data = List.replicate (c - 1) ' ' ++ ['^']) := by
  constructor
  · intro parse context input e h
    exact ⟨by simp [Es2cjs.es2cjs, h], rfl⟩
  · intro c hc
    by_cases h1 : ("^" : String).length ≥ c
    · have hc1 : c = 1 := le_antisymm h1 hc
      subst hc1
      exact ⟨rfl, rfl⟩
    · have h2 : ¬ ("^" : String).length ≥ c := h1
      constructor
      · show (Es2cjs.jsPadStart "^" c).length = c
        rw [Es2cjs.jsPadStart, if_neg h2, String.length_append, String.mk_length,
          List.length_replicate]
        have : ("^" : String).length = 1 := rfl
        rw [this]
        omega
      · show (Es2cjs.jsPadStart "^" c).data = _
        rw [Es2cjs.jsPadStart, if_neg h2, String.data_append]
        have h3 : ("^" : String).length = 1 := rfl
        have h4 : c - ("^" : String).length = c - 1 := by rw [h3]
        rw [h4]

/-- A concrete failing parse for the C9 witness. -/
def demoParseErr : Es2cjs.ParseErr := ⟨"SyntaxError", "Unexpected token", 1, 9⟩

/-- Witness for C9 at a concrete one-line module whose ninth column fails. -/
theorem parse_failure_is_fatal_witness :
    (Es2cjs.es2cjs (fun _ => .error demoParseErr) none "let x = ;" =
      .error (Es2cjs.formatParseError "let x = ;" demoParseErr)) ∧
    (Es2cjs.jsPadStart "^" 9).data = List.replicate 8 ' ' ++ ['^'] := by
  constructor
  · exact (parse_failure_is_fatal.1 (fun _ => .error demoParseErr) none
      "let x = ;" demoParseErr rfl).1
  · exact (parse_failure_is_fatal.2 9 (by decide)).2

/-- Witness for C8's amended theorem at a concrete string-literal entry and a
concrete hook-omitting plugin. -/
theorem string_literal_entry_returned_as_is_witness :
    _callAsyncHook (mkPlugin "h" (.val (.str "lit"))) "h" [] = .ok (.str "lit") ∧
    _callAsyncHook (mkPlugin "other" (.fn (fun _ => .ok .null))) "h" [] = .ok .undef := by
  constructor
  · exact string_literal_entry_returned_as_is.1 (mkPlugin "h" (.val (.str "lit"))) "h" [] "lit" rfl
  · exact string_literal_entry_returned_as_is.2.1 (mkPlugin "other" (.fn (fun _ => .ok .null)))
      "h" [] rfl

/-- A `find?` over a list extended on the right keeps its earlier answer. -/
theorem find?_append_of_isSome {α : Type} (p : α → Bool) :
    ∀ (l1 l2 : List α) (a : α), l1.find? p = some a → (l1 ++ l2).find? p = some a := by
  intro l1 l2 a
  induction l1 with
  | nil => intro h; exact absurd h (by simp)
  | cons x l1' ih =>
      intro h
      by_cases hp : p x = true
      · rw [List.find?_cons_of_pos _ hp] at h
        rw [List.cons_append, List.find?_cons_of_pos _ hp]
        exact h
      · rw [List.find?_cons_of_neg _ (by simpa using hp)] at h
        rw [List.cons_append, List.find?_cons_of_neg _ (by simpa using hp)]
        exact ih h

/-- C10: in the keyed bundle view handed to `generateBundle` hooks, every
property assignment appends the assigned record to the end of the underlying
ordered bundle sequence — even when a record with that file name is already
present — so assignment never replaces an existing record; reads are a linear
first-match lookup, so a subsequent read of that file name still returns the
earliest record carrying it. -/
theorem bundle_view_appends_and_reads_first_match :
    (∀ (bundle : List JSVal) (value : JSVal), bundleSet bundle value = bundle ++ [value]) ∧
    (∀ (bundle : List JSVal) (value : JSVal) (name : String),
      bundleGet bundle name ≠ .undef →
      bundleGet (bundleSet bundle value) name = bundleGet bundle name) ∧
    (∀ (b1 : List JSVal) (e : JSVal) (b2 : List JSVal) (name : String),
      jsStrictEqStr (getField e "fileName") name = true →
      (∀ x ∈ b1, jsStrictEqStr (getField x "fileName") name = false) →
      bundleGet (b1 ++ e :: b2) name = e) := by
  refine ⟨fun _ _ => rfl, ?_, ?_⟩
  · intro bundle value name hne
    cases hf : bundle.find? (fun e => jsStrictEqStr (getField e "fileName") name) with
    | none =>
        exact absurd (by rw [bundleGet, hf]; rfl) hne
    | some v =>
        rw [bundleGet, bundleSet, find?_append_of_isSome _ bundle [value] v hf,
          bundleGet, hf]
  · intro b1 e b2 name he hb1
    induction b1 with
    | nil =>
        rw [List.nil_append, bundleGet,
          @List.find?_cons_of_pos _ (fun x => jsStrictEqStr (getField x "fileName") name) e b2 he]
        rfl
    | cons x b1' ih =>
        have hx : jsStrictEqStr (getField x "fileName") name = false :=
          hb1 x (List.mem_cons_self x b1')
        have hb1' : ∀ y ∈ b1', jsStrictEqStr (getField y "fileName") name = false :=
          fun y hy => hb1 y (List.mem_cons_of_mem x hy)
        rw [List.cons_append, bundleGet,
          @List.find?_cons_of_neg _ (fun y => jsStrictEqStr (getField y "fileName") name)
            x (b1' ++ e :: b2) (by simp [hx])]
        rw [bundleGet] at ih
        exact ih hb1'

/-- Two bundle records sharing the file name `"a.js"`. -/
def bundleRec1 : JSVal := .obj [("fileName", .str "a.js"), ("tag", .num 1)]

/-- The second record with the same file name. -/
def bundleRec2 : JSVal := .obj [("fileName", .str "a.js"), ("tag", .num 2)]

/-- Witness for C10: assigning a record whose file name is already present
appends it, and the read still answers the earlier record. -/
theorem bundle_view_appends_and_reads_first_match_witness :
    bundleSet [bundleRec1] bundleRec2 = [bundleRec1, bundleRec2] ∧
    bundleGet (bundleSet [bundleRec1] bundleRec2) "a.js" = bundleGet [bundleRec1] "a.js" ∧
    bundleGet [bundleRec1, bundleRec2] "a.js" = bundleRec1 := by
  refine ⟨bundle_view_appends_and_reads_first_match.1 [bundleRec1] bundleRec2, ?_, ?_⟩
  · exact bundle_view_appends_and_reads_first_match.2.1 [bundleRec1] bundleRec2 "a.js"
      (fun h => by
        rw [show bundleGet [bundleRec1] "a.js" = bundleRec1 from rfl] at h
        exact JSVal.noConfusion h)
  · exact bundle_view_appends_and_reads_first_match.2.2 [] bundleRec1 [bundleRec2] "a.js"
      rfl (fun x hx => absurd hx (List.not_mem_nil x))
